import Mathlib

/-!
# Verification of the repomix vector-search synchronization core

Shallow embedding of the incremental vector-index synchronization code:

* `updateVectorDB`, `validateOpenAIApiKey`, `runSearchAction`
  (src/cli/actions/searchAction.ts, given as src/unnamed/part_000 and
  src/unnamed/part_001; the part_001 revision is the latest and is embedded
  here; the per-file update logic is identical in both revisions),
* `loadFileMetadata` / `saveFileMetadata`
  (src/src/core/metadata/metadataManager.ts, latest revision: the one with
  the inner try/catch around JSON.parse),
* a model of the JSON text format: the exact output of
  JSON.stringify(fileMetadata, null, 2) on the metadata shape, and a
  fuel-based recursive-descent parser modelling JSON.parse.

File system reads, hashing and the embedding API are external collaborators:
they are modelled as explicit per-file inputs (`FileView`), where `none` /
`false` means the corresponding call throws.  The FAISS vector store is
modelled by the list of issued operations plus an association list from
document id (the file path) to content.
-/

namespace Repomix

/-- One ledger entry: value type of the fileMetadata object,
`{ hash: string, timestamp: number }` (timestamp is mtimeMs; modelled as a
natural number). -/
structure FileRec where
  hash : String
  timestamp : Nat
deriving DecidableEq, Repr

/-- The in-memory ledger: a JavaScript object keyed by file path, modelled as
an insertion-ordered association list with unique keys. -/
abbrev FileMetadata := List (String × FileRec)

/-- JavaScript property read `fileMetadata[filePath]` / `filePath in fileMetadata`. -/
def mget : FileMetadata → String → Option FileRec
  | [], _ => none
  | (k, v) :: rest, key => if k = key then some v else mget rest key

/-- JavaScript property write `fileMetadata[filePath] = v`: overwrites in
place when the key exists, otherwise appends (JS insertion order). -/
def mset : FileMetadata → String → FileRec → FileMetadata
  | [], key, v => [(key, v)]
  | (k, w) :: rest, key, v =>
    if k = key then (key, v) :: rest else (k, w) :: mset rest key v

/-- A vector-store operation issued by the sync code.  `delete` models
`vectorStore.delete({ ids: [filePath] })`; `insert` models
`vectorStore.addDocuments([new Document({ pageContent, metadata: { source } })])`. -/
inductive VecOp where
  | delete (id : String)
  | insert (id : String) (content : String)
deriving DecidableEq, Repr

/-- The vector index contents: association from document id (file path) to
page content, per the one-vector-per-path data model. -/
abbrev VecStore := List (String × String)

def storeDelete (s : VecStore) (id : String) : VecStore :=
  s.filter (fun e => e.1 ≠ id)

def storeInsert (s : VecStore) (id content : String) : VecStore :=
  s ++ [(id, content)]

def storeLookup : VecStore → String → Option String
  | [], _ => none
  | (k, v) :: rest, key => if k = key then some v else storeLookup rest key

/-- The external collaborators seen by one `updateVectorDB` call, in program
order: `fs.stat` (mtimeMs), `readFileSync` + sha256 (`getFileHash`),
`fs.readFile`, `vectorStore.delete`, `vectorStore.addDocuments`.
`none` / `false` means that call throws. -/
structure FileView where
  statResult : Option Nat
  hashResult : Option String
  readResult : Option String
  deleteOk : Bool
  insertOk : Bool
deriving DecidableEq, Repr

/-- Result of one `updateVectorDB` call: vector operations successfully
issued (in order), the store and ledger afterwards, and whether the catch
block logged an error. -/
structure UpdResult where
  ops : List VecOp
  store : VecStore
  metadata : FileMetadata
  logged : Bool
deriving DecidableEq, Repr

/-- Embedding of `updateVectorDB` (src/unnamed/part_001 lines 25-55; the
logic is identical in src/unnamed/part_000 lines 23-53).  The whole body is
wrapped in try/catch: any throwing step logs and returns with the ledger
untouched. -/
def updateVectorDB (filePath : String) (v : FileView) (store : VecStore)
    (fileMetadata : FileMetadata) (forceUpdate : Bool) : UpdResult :=
  match v.statResult with
  | none => ⟨[], store, fileMetadata, true⟩
  | some currentTimestamp =>
    match v.hashResult with
    | none => ⟨[], store, fileMetadata, true⟩
    | some currentHash =>
      if (match mget fileMetadata filePath with
          | some r => r.hash != currentHash
          | none => false) || forceUpdate then
        match v.readResult with
        | none => ⟨[], store, fileMetadata, true⟩
        | some content =>
          if (mget fileMetadata filePath).isSome then
            if v.deleteOk then
              if v.insertOk then
                ⟨[.delete filePath, .insert filePath content],
                 storeInsert (storeDelete store filePath) filePath content,
                 mset fileMetadata filePath ⟨currentHash, currentTimestamp⟩, false⟩
              else
                ⟨[.delete filePath], storeDelete store filePath, fileMetadata, true⟩
            else
              ⟨[], store, fileMetadata, true⟩
          else
            if v.insertOk then
              ⟨[.insert filePath content],
               storeInsert store filePath content,
               mset fileMetadata filePath ⟨currentHash, currentTimestamp⟩, false⟩
            else
              ⟨[], store, fileMetadata, true⟩
      else
        ⟨[], store, fileMetadata, false⟩

/-- The character class String.prototype.trim removes: ECMAScript
WhiteSpace and LineTerminator code points. -/
def isJsWsChar (c : Char) : Bool :=
  let n := c.toNat
  (9 ≤ n && n ≤ 13) || n == 32 || n == 160 || n == 5760 ||
    (8192 ≤ n && n ≤ 8202) || n == 8232 || n == 8233 || n == 8239 ||
    n == 8287 || n == 12288 || n == 65279

/-- Model of `apiKey.trim()`: drop JS whitespace from both ends. -/
def jsTrim (s : String) : String :=
  ⟨((s.data.dropWhile isJsWsChar).reverse.dropWhile isJsWsChar).reverse⟩

/-- Embedding of `validateOpenAIApiKey` (src/unnamed/part_001 lines 72-77):
`apiKey && apiKey.trim().length > 20` with JS string truthiness. -/
def validateOpenAIApiKey (apiKey : String) : Bool :=
  !apiKey.isEmpty && (jsTrim apiKey).length > 20

/-- CLI options consumed by `runSearchAction` (fields of `CliOptions` that
the function reads). -/
structure CliOptions where
  openaiApiKey : Option String
  vectorStorePath : Option String
  forceUpdateVector : Bool

/-- Result of `fs.stat` when it succeeds. -/
structure FsStat where
  isFile : Bool
  mtimeMs : Nat
deriving DecidableEq, Repr

/-- The external world a `runSearchAction` call runs against:
environment variable, `fs.readdir` listing, the orchestrator's own
`fs.stat` calls (line 131; `.error` means the promise rejects), the
per-file collaborators used inside `updateVectorDB`, the result of
`loadFileMetadata`, writability of the vector-store directory, and the
result of `FaissStore.load` (`none` means load threw and an empty store is
created instead). -/
structure World where
  envKey : Option String
  listing : List String
  statO : String → Except String FsStat
  views : String → FileView
  loadedMetadata : FileMetadata
  storePathWritable : Bool
  loadedStore : Option VecStore

/-- JS truthiness of an optional string: present and non-empty. -/
def truthy : Option String → Bool
  | some s => !s.isEmpty
  | none => false

/-- `path.join(process.cwd(), fileName)`. -/
def pathJoin (dir name : String) : String := dir ++ "/" ++ name

/-- Accumulated outcome of the per-file for-loop of `runSearchAction`
(lines 129-136): operations issued so far, store and ledger state, and the
unhandled stat rejection if one occurred (which aborts the loop). -/
structure SyncOut where
  ops : List VecOp
  store : VecStore
  metadata : FileMetadata
  err : Option (String × String)
deriving DecidableEq, Repr

/-- The for-loop of `runSearchAction`: for each directory entry, `fs.stat`
outside any try/catch (an error here rejects the whole run), then
`updateVectorDB` when the entry is a file. -/
def syncLoop (cwd : String) (statO : String → Except String FsStat)
    (views : String → FileView) (force : Bool) :
    List String → VecStore → FileMetadata → SyncOut
  | [], store, md => ⟨[], store, md, none⟩
  | n :: rest, store, md =>
    let p := pathJoin cwd n
    match statO p with
    | .error e => ⟨[], store, md, some (p, e)⟩
    | .ok st =>
      if st.isFile then
        let r := updateVectorDB p (views p) store md force
        let out := syncLoop cwd statO views force rest r.store r.metadata
        ⟨r.ops ++ out.ops, out.store, out.metadata, out.err⟩
      else
        syncLoop cwd statO views force rest store md

/-- How a `runSearchAction` call ends when it does not complete normally. -/
inductive RunError where
  | missingKey
  | invalidKey
  | invalidPath
  | statFail (p : String) (e : String)
deriving DecidableEq, Repr

/-- Observable outcome of `runSearchAction`: whether the index open
(FaissStore.load / fromTexts) was reached, the vector operations issued,
the ledger that was saved (`none` when the run never reached
`saveFileMetadata`), and the terminating error if any. -/
structure RunResult where
  opened : Bool
  ops : List VecOp
  finalMeta : Option FileMetadata
  error : Option RunError
deriving DecidableEq, Repr

/-- The credential candidate the run actually validates:
`options.openaiApiKey || process.env.OPENAI_API_KEY` with JS falsiness of
the empty string. -/
def resolvedKey (options : CliOptions) (w : World) : Option String :=
  if truthy options.openaiApiKey then options.openaiApiKey else w.envKey

/-- Embedding of `runSearchAction` (src/unnamed/part_001 lines 79-152):
resolve the credential (`options.openaiApiKey || process.env.OPENAI_API_KEY`),
reject a missing or invalid key, validate the override store path, open or
create the store, load the ledger, clear it when force-rebuild is set, run
the per-file loop, then persist.  The final similarity query does not touch
the ledger or issue sync operations and is not modelled further. -/
def runSearchAction (cwd : String) (options : CliOptions) (w : World) :
    RunResult :=
  match resolvedKey options w with
  | none => ⟨false, [], none, some .missingKey⟩
  | some k =>
    if k.isEmpty then ⟨false, [], none, some .missingKey⟩
    else if !validateOpenAIApiKey k then ⟨false, [], none, some .invalidKey⟩
    else if options.vectorStorePath.isSome && !w.storePathWritable then
      ⟨false, [], none, some .invalidPath⟩
    else
      let store0 := w.loadedStore.getD []
      let md0 := if options.forceUpdateVector then [] else w.loadedMetadata
      let out := syncLoop cwd w.statO w.views options.forceUpdateVector
        w.listing store0 md0
      match out.err with
      | some (p, e) => ⟨true, out.ops, none, some (.statFail p e)⟩
      | none => ⟨true, out.ops, some out.metadata, none⟩

/-! ## JSON model

`saveFileMetadata` writes `JSON.stringify(fileMetadata, null, 2)` and
`loadFileMetadata` reads it back through `JSON.parse`.  The printer below
produces exactly the stringify output for the metadata shape (two-space
indented object of `{hash, timestamp}` objects, with JSON string escaping);
the parser is a recursive-descent parser of JSON text.  JavaScript number
printing is modelled for the natural-number timestamps the embedding uses.
-/

/-- JSON whitespace accepted between tokens: space, tab, line feed,
carriage return. -/
def isWsChar (c : Char) : Bool :=
  c == ' ' || c == '\t' || c == '\n' || c == '\r'

def skipWs : List Char → List Char
  | [] => []
  | c :: rest => if isWsChar c then skipWs rest else c :: rest

def isDigitChar (c : Char) : Bool :=
  48 ≤ c.toNat && c.toNat ≤ 57

def digitVal (c : Char) : Nat := c.toNat - 48

def digitChar (d : Nat) : Char := Char.ofNat (48 + d)

/-- Lowercase hex digit, as emitted by JSON.stringify escape sequences. -/
def hexDigitChar (d : Nat) : Char :=
  if d < 10 then Char.ofNat (48 + d) else Char.ofNat (87 + d)

def hexVal (c : Char) : Option Nat :=
  if 48 ≤ c.toNat ∧ c.toNat ≤ 57 then some (c.toNat - 48)
  else if 97 ≤ c.toNat ∧ c.toNat ≤ 102 then some (c.toNat - 87)
  else if 65 ≤ c.toNat ∧ c.toNat ≤ 70 then some (c.toNat - 55)
  else none

/-- Decimal digits of a natural number, least significant first. -/
def natToRevDigits (n : Nat) : List Char :=
  if h : n < 10 then [digitChar n]
  else digitChar (n % 10) :: natToRevDigits (n / 10)
decreasing_by exact Nat.div_lt_self (by omega) (by omega)

/-- JavaScript decimal printing of a natural number. -/
def natToString (n : Nat) : String := ⟨(natToRevDigits n).reverse⟩

def digitsToNat (ds : List Char) : Nat :=
  ds.foldl (fun a c => a * 10 + digitVal c) 0

/-- JSON.stringify escaping of one character: named escapes for quote,
backslash, backspace, tab, line feed, form feed, carriage return; \u00xx
for the remaining control characters; everything else verbatim. -/
def escChar (c : Char) : List Char :=
  if c == '"' then ['\\', '"']
  else if c == '\\' then ['\\', '\\']
  else if c == Char.ofNat 8 then ['\\', 'b']
  else if c == '\t' then ['\\', 't']
  else if c == '\n' then ['\\', 'n']
  else if c == Char.ofNat 12 then ['\\', 'f']
  else if c == '\r' then ['\\', 'r']
  else if c.toNat < 32 then
    ['\\', 'u', '0', '0', hexDigitChar (c.toNat / 16), hexDigitChar (c.toNat % 16)]
  else [c]

def escapeChars : List Char → List Char
  | [] => []
  | c :: rest => escChar c ++ escapeChars rest

/-- A JSON string literal, quotes included. -/
def quoteString (s : String) : String :=
  ⟨'"' :: (escapeChars s.data ++ ['"'])⟩

/-- JSON values.  Plain natural-number literals parse to `num`; every other
numeric literal is kept as its lexeme in `numRaw` (its floating-point value
belongs to the JS runtime and is never needed here). -/
inductive Jval where
  | null
  | bool (b : Bool)
  | num (n : Nat)
  | numRaw (lit : String)
  | str (s : String)
  | arr (elems : List Jval)
  | obj (fields : List (String × Jval))
deriving BEq, Repr

/-- Body of a JSON string literal after the opening quote: unescapes until
the closing quote, rejecting raw control characters and bad escapes. -/
def parseStringBody : List Char → Option (List Char × List Char)
  | [] => none
  | c :: rest =>
    if c == '"' then some ([], rest)
    else if c == '\\' then
      match rest with
      | [] => none
      | e :: rest2 =>
        if e == '"' then
          (parseStringBody rest2).map (fun p => ('"' :: p.1, p.2))
        else if e == '\\' then
          (parseStringBody rest2).map (fun p => ('\\' :: p.1, p.2))
        else if e == '/' then
          (parseStringBody rest2).map (fun p => ('/' :: p.1, p.2))
        else if e == 'b' then
          (parseStringBody rest2).map (fun p => (Char.ofNat 8 :: p.1, p.2))
        else if e == 'f' then
          (parseStringBody rest2).map (fun p => (Char.ofNat 12 :: p.1, p.2))
        else if e == 'n' then
          (parseStringBody rest2).map (fun p => ('\n' :: p.1, p.2))
        else if e == 'r' then
          (parseStringBody rest2).map (fun p => ('\r' :: p.1, p.2))
        else if e == 't' then
          (parseStringBody rest2).map (fun p => ('\t' :: p.1, p.2))
        else if e == 'u' then
          match rest2 with
          | h1 :: h2 :: h3 :: h4 :: rest3 =>
            match hexVal h1, hexVal h2, hexVal h3, hexVal h4 with
            | some x1, some x2, some x3, some x4 =>
              (parseStringBody rest3).map
                (fun p => (Char.ofNat (x1 * 4096 + x2 * 256 + x3 * 16 + x4) :: p.1, p.2))
            | _, _, _, _ => none
          | _ => none
        else none
    else if c.toNat < 32 then none
    else (parseStringBody rest).map (fun p => (c :: p.1, p.2))

/-- Assemble a parsed numeric literal: a bare natural number becomes `num`,
anything signed, fractional or exponential stays a raw lexeme. -/
def mkNum (sign intPart fracPart expPart : List Char) : Jval :=
  if sign.isEmpty && fracPart.isEmpty && expPart.isEmpty then
    Jval.num (digitsToNat intPart)
  else Jval.numRaw ⟨sign ++ intPart ++ fracPart ++ expPart⟩

/-- Exponent-sign handling: one leading plus or minus is consumed. -/
def expSign (r2 : List Char) : List Char × List Char :=
  match r2 with
  | [] => ([], [])
  | c2 :: r =>
    if c2 == '+' then (['+'], r)
    else if c2 == '-' then (['-'], r)
    else ([], c2 :: r)

def finishExp (sign intPart fracPart rest : List Char) :
    Option (Jval × List Char) :=
  match rest with
  | e :: r2 =>
    if e == 'e' || e == 'E' then
      let sp := expSign r2
      let p := sp.2.span isDigitChar
      if p.1.isEmpty then none
      else some (mkNum sign intPart fracPart (e :: (sp.1 ++ p.1)), p.2)
    else some (mkNum sign intPart fracPart [], e :: r2)
  | [] => some (mkNum sign intPart fracPart [], [])

def finishNumber (sign intPart rest : List Char) : Option (Jval × List Char) :=
  match rest with
  | c :: r2 =>
    if c == '.' then
      let p := r2.span isDigitChar
      if p.1.isEmpty then none
      else finishExp sign intPart ('.' :: p.1) p.2
    else finishExp sign intPart [] (c :: r2)
  | [] => finishExp sign intPart [] []

def parseNumberBody (sign : List Char) (cs : List Char) :
    Option (Jval × List Char) :=
  match cs with
  | [] => none
  | c :: r =>
    if c == '0' then finishNumber sign ['0'] r
    else if isDigitChar c then
      let p := r.span isDigitChar
      finishNumber sign (c :: p.1) p.2
    else none

/-- JSON number grammar: optional minus, `0` or a nonzero-led digit run,
optional fraction, optional exponent. -/
def parseNumber (cs : List Char) : Option (Jval × List Char) :=
  match cs with
  | [] => none
  | c0 :: r0 =>
    if c0 == '-' then parseNumberBody ['-'] r0
    else parseNumberBody [] (c0 :: r0)

mutual

/-- One JSON value, leading whitespace allowed, trailing input returned. -/
def parseValue : Nat → List Char → Option (Jval × List Char)
  | 0, _ => none
  | fuel + 1, cs =>
    match skipWs cs with
    | [] => none
    | c :: rest =>
      if c == '"' then
        match parseStringBody rest with
        | some (s, r) => some (.str ⟨s⟩, r)
        | none => none
      else if c == '{' then
        match skipWs rest with
        | [] => none
        | c2 :: r2 =>
          if c2 == '}' then some (.obj [], r2)
          else
            match parseMembers fuel (c2 :: r2) with
            | some (fs, r) => some (.obj fs, r)
            | none => none
      else if c == '[' then
        match skipWs rest with
        | [] => none
        | c2 :: r2 =>
          if c2 == ']' then some (.arr [], r2)
          else
            match parseElems fuel (c2 :: r2) with
            | some (es, r) => some (.arr es, r)
            | none => none
      else if c == 't' then
        match rest with
        | 'r' :: 'u' :: 'e' :: r => some (.bool true, r)
        | _ => none
      else if c == 'f' then
        match rest with
        | 'a' :: 'l' :: 's' :: 'e' :: r => some (.bool false, r)
        | _ => none
      else if c == 'n' then
        match rest with
        | 'u' :: 'l' :: 'l' :: r => some (.null, r)
        | _ => none
      else parseNumber (c :: rest)

/-- Object members from the first key (whitespace already skipped) through
the closing brace. -/
def parseMembers : Nat → List Char → Option (List (String × Jval) × List Char)
  | 0, _ => none
  | fuel + 1, cs =>
    match cs with
    | [] => none
    | c :: rest =>
      if c == '"' then
        match parseStringBody rest with
        | none => none
        | some (k, r1) =>
          match skipWs r1 with
          | [] => none
          | c2 :: r2 =>
            if c2 == ':' then
              match parseValue fuel r2 with
              | none => none
              | some (v, r3) =>
                match skipWs r3 with
                | [] => none
                | c3 :: r4 =>
                  if c3 == ',' then
                    match parseMembers fuel (skipWs r4) with
                    | some (fs, r) => some ((⟨k⟩, v) :: fs, r)
                    | none => none
                  else if c3 == '}' then some ([(⟨k⟩, v)], r4)
                  else none
            else none
      else none

/-- Array elements through the closing bracket. -/
def parseElems : Nat → List Char → Option (List Jval × List Char)
  | 0, _ => none
  | fuel + 1, cs =>
    match parseValue fuel cs with
    | none => none
    | some (v, r1) =>
      match skipWs r1 with
      | [] => none
      | c2 :: r2 =>
        if c2 == ',' then
          match parseElems fuel (skipWs r2) with
          | some (es, r) => some (v :: es, r)
          | none => none
        else if c2 == ']' then some ([v], r2)
        else none

end

/-- Model of `JSON.parse`: one value, trailing whitespace only, whole input
consumed; `none` models a thrown SyntaxError. -/
def jsonParse (s : String) : Option Jval :=
  match parseValue (s.length + 1) s.data with
  | some (v, rest) => if (skipWs rest).isEmpty then some v else none
  | none => none

/-- How reading the ledger file can fail. -/
inductive FsError where
  | enoent
  | other (msg : String)
deriving DecidableEq, Repr

/-- What `loadFileMetadata` produces: the value handed to the caller (the
code casts the JSON.parse result without checking its shape) and whether a
parse warning was logged. -/
structure LoadResult where
  value : Jval
  warned : Bool
deriving BEq, Repr

/-- Embedding of `loadFileMetadata`
(src/src/core/metadata/metadataManager.ts lines 5-24, the revision with the
inner try/catch): a missing file yields an empty object, malformed JSON
logs a warning and yields an empty object, any other read error also
yields an empty object. -/
def loadFileMetadata : Except FsError String → LoadResult
  | .ok content =>
    match jsonParse content with
    | some v => ⟨v, false⟩
    | none => ⟨Jval.obj [], true⟩
  | .error .enoent => ⟨Jval.obj [], false⟩
  | .error (.other _) => ⟨Jval.obj [], true⟩

/-- The JSON value of one ledger entry, `{ hash: ..., timestamp: ... }`
with keys in the insertion order the code uses. -/
def encodeRec (r : FileRec) : Jval :=
  .obj [("hash", .str r.hash), ("timestamp", .num r.timestamp)]

/-- The JSON value `saveFileMetadata` serializes. -/
def encodeMetadata (m : FileMetadata) : Jval :=
  .obj (m.map fun e => (e.1, encodeRec e.2))

def decodeRec : Jval → Option FileRec
  | .obj [("hash", .str h), ("timestamp", .num t)] => some ⟨h, t⟩
  | _ => none

def decodeFields : List (String × Jval) → Option FileMetadata
  | [] => some []
  | (k, v) :: rest =>
    match decodeRec v, decodeFields rest with
    | some r, some m => some ((k, r) :: m)
    | _, _ => none

/-- Reads a metadata mapping back off its JSON value. -/
def decodeMetadata : Jval → Option FileMetadata
  | .obj fs => decodeFields fs
  | _ => none

/-- `JSON.stringify(record, null, 2)` for one entry value nested at depth
one: inner lines at four spaces, closing brace at two. -/
def printRec (r : FileRec) : String :=
  "\x7b\n    \"hash\": " ++ quoteString r.hash ++ ",\n    \"timestamp\": "
    ++ natToString r.timestamp ++ "\n  \x7d"

def printEntry (e : String × FileRec) : String :=
  "  " ++ quoteString e.1 ++ ": " ++ printRec e.2

def entriesString : FileMetadata → String
  | [] => ""
  | [e] => printEntry e
  | e :: rest => printEntry e ++ ",\n" ++ entriesString rest

/-- The exact text `saveFileMetadata` writes:
`JSON.stringify(fileMetadata, null, 2)`
(src/src/core/metadata/metadataManager.ts line 32). -/
def saveFileMetadataString : FileMetadata → String
  | [] => "{}"
  | m => "\x7b\n" ++ entriesString m ++ "\n\x7d"

/-- The character stream of the saved metadata object from the first key
onward (the two-space indent before each key already consumed), ending at
the closing brace of the whole object followed by `tail`.  This is the view
of the printed text that the object-member parser walks. -/
def memberStream : FileMetadata → List Char → List Char
  | [], tail => tail
  | [(k, r)], tail =>
    (quoteString k).data ++ ':' :: ' ' :: ((printRec r).data ++ ('\n' :: '}' :: tail))
  | (k, r) :: rest, tail =>
    (quoteString k).data ++ ':' :: ' ' ::
      ((printRec r).data ++ (',' :: '\n' :: ' ' :: ' ' :: memberStream rest tail))

/-! ## Concrete scenario used for the stat-abort counterexample -/

/-- Options with a healthy credential and no store-path override. -/
def okOptions : CliOptions := ⟨some "sk-abcdefghijklmnopqrstuv", none, false⟩

/-- A world in which the first listed file vanishes between `fs.readdir`
and the orchestrator's `fs.stat` call, while the second listed file is a
modified file whose collaborators are all healthy. -/
def statFailWorld : World where
  envKey := none
  listing := ["gone.txt", "b.txt"]
  statO := fun p => if p == "/w/gone.txt" then .error "ENOENT" else .ok ⟨true, 7⟩
  views := fun _ => ⟨some 7, some "hNew", some "fresh content", true, true⟩
  loadedMetadata := [("/w/b.txt", ⟨"hOld", 3⟩)]
  storePathWritable := true
  loadedStore := some [("/w/b.txt", "old content")]

/-! ## Ledger map lemmas -/

theorem mget_mset_self (m : FileMetadata) (k : String) (v : FileRec) :
    mget (mset m k v) k = some v := by
  induction m with
  | nil => simp [mget, mset]
  | cons e rest ih =>
    by_cases h : e.1 = k
    · simp [mget, mset, h]
    · simp [mget, mset, h, ih]

theorem mset_of_mget_none (m : FileMetadata) (k : String) (v : FileRec)
    (h : mget m k = none) : mset m k v = m ++ [(k, v)] := by
  induction m with
  | nil => simp [mset]
  | cons e rest ih =>
    by_cases he : e.1 = k
    · simp [mget, he] at h
    · simp [mget, he] at h
      simp [mset, he, ih h]

theorem mget_append_of_none (a b : FileMetadata) (k : String)
    (h : mget a k = none) : mget (a ++ b) k = mget b k := by
  induction a with
  | nil => simp
  | cons e rest ih =>
    by_cases he : e.1 = k
    · simp [mget, he] at h
    · simp [mget, he] at h ⊢
      exact ih h

theorem mget_singleton_ne (k k2 : String) (v : FileRec) (h : k ≠ k2) :
    mget [(k, v)] k2 = none := by
  simp [mget, h]

theorem storeLookup_storeDelete (s : VecStore) (id : String) :
    storeLookup (storeDelete s id) id = none := by
  induction s with
  | nil => rfl
  | cons e rest ih =>
    by_cases h : e.1 = id
    · simpa [storeDelete, h] using ih
    · simpa [storeDelete, storeLookup, h] using ih

theorem pathJoin_inj (dir a b : String) (h : pathJoin dir a = pathJoin dir b) :
    a = b := by
  unfold pathJoin at h
  have hd : (dir ++ "/" ++ a).data = (dir ++ "/" ++ b).data := by rw [h]
  simp only [String.data_append] at hd
  have h2 := List.append_cancel_left hd
  cases a; cases b
  simp only at h2
  exact congrArg String.mk h2

/-! ## Claim C1 -/

/-- C1: the claim says a file whose path is absent from the ledger (a new
file), with the force flag unset, gets exactly one insert and a fresh
ledger entry.  The code disagrees: the update condition is
`(filePath in fileMetadata && hash differs) || forceUpdate`, which is false
for a path outside the ledger, so the sync run issues no operation at all
for a new file and adds no ledger entry — whatever the file collaborators
would have returned. -/
theorem newFile_skipped_without_force (p : String) (v : FileView)
    (store : VecStore) (md : FileMetadata) (h : mget md p = none) :
    (updateVectorDB p v store md false).ops = [] ∧
    (updateVectorDB p v store md false).metadata = md ∧
    (updateVectorDB p v store md false).store = store := by
  obtain ⟨st, hh, rr, d, i⟩ := v
  cases st <;> cases hh <;> simp [updateVectorDB, h]

/-- Witness: a concrete new file with every collaborator healthy is still
skipped entirely. -/
theorem newFile_skipped_without_force_witness :
    mget ([] : FileMetadata) "/w/a.txt" = none ∧
    (updateVectorDB "/w/a.txt" ⟨some 5, some "h", some "text", true, true⟩
        [] [] false).ops = [] ∧
    (updateVectorDB "/w/a.txt" ⟨some 5, some "h", some "text", true, true⟩
        [] [] false).metadata = [] ∧
    (updateVectorDB "/w/a.txt" ⟨some 5, some "h", some "text", true, true⟩
        [] [] false).store = [] :=
  ⟨rfl, newFile_skipped_without_force "/w/a.txt"
    ⟨some 5, some "h", some "text", true, true⟩ [] [] rfl⟩

/-! ## Claim C3 -/

/-- C3: a file present in the ledger whose current hash differs from the
recorded one gets exactly one delete followed by exactly one insert of the
new content, and its ledger entry is overwritten with the new hash and
timestamp. -/
theorem modified_file_delete_insert_update (p : String) (store : VecStore)
    (md : FileMetadata) (r0 : FileRec) (ts : Nat) (currentHash content : String)
    (hmem : mget md p = some r0) (hne : r0.hash ≠ currentHash) :
    updateVectorDB p ⟨some ts, some currentHash, some content, true, true⟩
        store md false =
      ⟨[.delete p, .insert p content],
       storeInsert (storeDelete store p) p content,
       mset md p ⟨currentHash, ts⟩, false⟩ ∧
    mget (mset md p ⟨currentHash, ts⟩) p = some ⟨currentHash, ts⟩ := by
  refine ⟨?_, mget_mset_self md p ⟨currentHash, ts⟩⟩
  simp [updateVectorDB, hmem, bne_iff_ne, hne]

/-- Witness for C3 at a concrete modified file. -/
theorem modified_file_delete_insert_update_witness :
    mget [("/w/a.txt", ⟨"oldhash", 1⟩)] "/w/a.txt" = some ⟨"oldhash", 1⟩ ∧
    ("oldhash" : String) ≠ "newhash" ∧
    (updateVectorDB "/w/a.txt" ⟨some 9, some "newhash", some "new text", true, true⟩
        [("/w/a.txt", "old text")] [("/w/a.txt", ⟨"oldhash", 1⟩)] false =
      ⟨[.delete "/w/a.txt", .insert "/w/a.txt" "new text"],
       storeInsert (storeDelete [("/w/a.txt", "old text")] "/w/a.txt") "/w/a.txt" "new text",
       mset [("/w/a.txt", ⟨"oldhash", 1⟩)] "/w/a.txt" ⟨"newhash", 9⟩, false⟩ ∧
     mget (mset [("/w/a.txt", ⟨"oldhash", 1⟩)] "/w/a.txt" ⟨"newhash", 9⟩) "/w/a.txt" =
       some ⟨"newhash", 9⟩) :=
  ⟨by decide, by decide,
   modified_file_delete_insert_update "/w/a.txt" [("/w/a.txt", "old text")]
     [("/w/a.txt", ⟨"oldhash", 1⟩)] ⟨"oldhash", 1⟩ 9 "newhash" "new text"
     (by decide) (by decide)⟩

/-! ## Claim C4 -/

/-- C4: a file whose ledger entry records exactly the current content hash,
with the force flag unset, triggers no vector operation and leaves the
whole ledger (hence its entry) untouched, whatever the remaining
collaborators would have done. -/
theorem unchanged_file_noop (p : String) (store : VecStore) (md : FileMetadata)
    (r0 : FileRec) (ts : Nat) (rr : Option String) (dOk iOk : Bool)
    (hmem : mget md p = some r0) :
    updateVectorDB p ⟨some ts, some r0.hash, rr, dOk, iOk⟩ store md false =
      ⟨[], store, md, false⟩ := by
  simp [updateVectorDB, hmem]

/-- Witness for C4 at a concrete unchanged file. -/
theorem unchanged_file_noop_witness :
    mget [("/w/a.txt", ⟨"samehash", 4⟩)] "/w/a.txt" = some ⟨"samehash", 4⟩ ∧
    updateVectorDB "/w/a.txt" ⟨some 8, some "samehash", some "text", true, true⟩
        [("/w/a.txt", "text")] [("/w/a.txt", ⟨"samehash", 4⟩)] false =
      ⟨[], [("/w/a.txt", "text")], [("/w/a.txt", ⟨"samehash", 4⟩)], false⟩ :=
  ⟨by decide,
   unchanged_file_noop "/w/a.txt" [("/w/a.txt", "text")]
     [("/w/a.txt", ⟨"samehash", 4⟩)] ⟨"samehash", 4⟩ 8 (some "text") true true
     (by decide)⟩

/-! ## Claim C6 -/

/-- C6 counterexample: modified file, the delete succeeds, the insert
fails.  The claim says the file then has no ledger entry and is classified
New next run; in the code the catch block leaves the ledger untouched, so
the old entry (old hash, old timestamp) is still present. -/
theorem failed_insert_keeps_ledger_entry :
    (updateVectorDB "/w/a.txt" ⟨some 2, some "h2", some "c2", true, false⟩
        [("/w/a.txt", "c1")] [("/w/a.txt", ⟨"h1", 1⟩)] false).ops =
      [VecOp.delete "/w/a.txt"] ∧
    storeLookup (updateVectorDB "/w/a.txt" ⟨some 2, some "h2", some "c2", true, false⟩
        [("/w/a.txt", "c1")] [("/w/a.txt", ⟨"h1", 1⟩)] false).store "/w/a.txt" = none ∧
    mget (updateVectorDB "/w/a.txt" ⟨some 2, some "h2", some "c2", true, false⟩
        [("/w/a.txt", "c1")] [("/w/a.txt", ⟨"h1", 1⟩)] false).metadata "/w/a.txt" =
      some ⟨"h1", 1⟩ := by
  refine ⟨by decide, ?_, by decide⟩
  decide

/-- C6 amended: after a successful delete and a failed insert the file has
no vector in the index, but its old ledger entry survives, so the next run
classifies it Modified again (hash still differs) and reissues the delete
and the insert. -/
theorem failed_insert_leaves_no_vector_and_modified_next_run
    (p : String) (store : VecStore) (md : FileMetadata) (r0 : FileRec)
    (ts : Nat) (h c : String) (hmem : mget md p = some r0) (hne : r0.hash ≠ h) :
    (updateVectorDB p ⟨some ts, some h, some c, true, false⟩ store md false).ops =
      [.delete p] ∧
    storeLookup (updateVectorDB p ⟨some ts, some h, some c, true, false⟩
        store md false).store p = none ∧
    (updateVectorDB p ⟨some ts, some h, some c, true, false⟩ store md false).metadata = md ∧
    (∀ ts2 c2 store2,
      updateVectorDB p ⟨some ts2, some h, some c2, true, true⟩ store2 md false =
        ⟨[.delete p, .insert p c2], storeInsert (storeDelete store2 p) p c2,
         mset md p ⟨h, ts2⟩, false⟩) := by
  refine ⟨?_, ?_, ?_, ?_⟩
  · simp [updateVectorDB, hmem, bne_iff_ne, hne]
  · simp only [updateVectorDB, hmem, bne_iff_ne]
    simp [hne, storeLookup_storeDelete]
  · simp [updateVectorDB, hmem, bne_iff_ne, hne]
  · intro ts2 c2 store2
    simp [updateVectorDB, hmem, bne_iff_ne, hne]

/-- Witness for the amended C6 statement. -/
theorem failed_insert_no_vector_witness :
    mget [("/w/b.txt", ⟨"hOld", 1⟩)] "/w/b.txt" = some ⟨"hOld", 1⟩ ∧
    ("hOld" : String) ≠ "hNew" ∧
    ((updateVectorDB "/w/b.txt" ⟨some 2, some "hNew", some "body", true, false⟩
        [("/w/b.txt", "old")] [("/w/b.txt", ⟨"hOld", 1⟩)] false).ops =
      [.delete "/w/b.txt"] ∧
    storeLookup (updateVectorDB "/w/b.txt" ⟨some 2, some "hNew", some "body", true, false⟩
        [("/w/b.txt", "old")] [("/w/b.txt", ⟨"hOld", 1⟩)] false).store "/w/b.txt" = none ∧
    (updateVectorDB "/w/b.txt" ⟨some 2, some "hNew", some "body", true, false⟩
        [("/w/b.txt", "old")] [("/w/b.txt", ⟨"hOld", 1⟩)] false).metadata =
      [("/w/b.txt", ⟨"hOld", 1⟩)] ∧
    (∀ ts2 c2 store2,
      updateVectorDB "/w/b.txt" ⟨some ts2, some "hNew", some c2, true, true⟩ store2
          [("/w/b.txt", ⟨"hOld", 1⟩)] false =
        ⟨[.delete "/w/b.txt", .insert "/w/b.txt" c2],
         storeInsert (storeDelete store2 "/w/b.txt") "/w/b.txt" c2,
         mset [("/w/b.txt", ⟨"hOld", 1⟩)] "/w/b.txt" ⟨"hNew", ts2⟩, false⟩)) :=
  ⟨by decide, by decide,
   failed_insert_leaves_no_vector_and_modified_next_run "/w/b.txt"
     [("/w/b.txt", "old")] [("/w/b.txt", ⟨"hOld", 1⟩)] ⟨"hOld", 1⟩ 2 "hNew" "body"
     (by decide) (by decide)⟩

/-! ## Claim C10 -/

/-- C10: a ledger entry for a path is written only by a per-file step whose
insert succeeded (the write is the last action, after the insert), and any
caught per-file failure leaves the ledger exactly as it was. -/
theorem ledger_write_requires_successful_insert (p : String) (v : FileView)
    (store : VecStore) (md : FileMetadata) (force : Bool) :
    ((updateVectorDB p v store md force).logged = true →
      (updateVectorDB p v store md force).metadata = md) ∧
    ((updateVectorDB p v store md force).metadata ≠ md →
      ∃ ts h c, v.statResult = some ts ∧ v.hashResult = some h ∧
        v.readResult = some c ∧ v.insertOk = true ∧
        (updateVectorDB p v store md force).metadata = mset md p ⟨h, ts⟩ ∧
        (updateVectorDB p v store md force).ops.getLast? = some (.insert p c)) := by
  obtain ⟨st, hh, rr, d, i⟩ := v
  cases st with
  | none => simp [updateVectorDB]
  | some ts =>
    cases hh with
    | none => simp [updateVectorDB]
    | some h =>
      simp only [updateVectorDB]
      split
      · cases rr with
        | none => simp
        | some c =>
          rcases hm : mget md p with _ | r0 <;> cases d <;> cases i <;> simp [hm]
      · simp

/-- Witness for C10: a concrete failing insert leaves the ledger unchanged. -/
theorem ledger_write_requires_successful_insert_witness :
    (updateVectorDB "/w/c.txt" ⟨some 3, some "hX", some "body", true, false⟩
        [] [("/w/c.txt", ⟨"hY", 1⟩)] false).metadata =
      [("/w/c.txt", ⟨"hY", 1⟩)] :=
  (ledger_write_requires_successful_insert "/w/c.txt"
    ⟨some 3, some "hX", some "body", true, false⟩ [] [("/w/c.txt", ⟨"hY", 1⟩)]
    false).1 (by decide)

/-! ## Sync-loop lemmas -/

/-- A run of the per-file loop under the force flag, starting from a ledger
with none of the upcoming paths: every listed file gets exactly one insert
(no delete is even reachable) and one fresh ledger entry, in listing
order. -/
theorem syncLoop_force_fresh
    (cwd : String) (statO : String → Except String FsStat)
    (views : String → FileView) (ts : String → Nat) (h c : String → String)
    (l : List String) (store : VecStore) (md : FileMetadata)
    (hstat : ∀ n ∈ l, statO (pathJoin cwd n) = .ok ⟨true, ts (pathJoin cwd n)⟩)
    (hview : ∀ n ∈ l, views (pathJoin cwd n) =
      ⟨some (ts (pathJoin cwd n)), some (h (pathJoin cwd n)),
       some (c (pathJoin cwd n)), true, true⟩)
    (hnodup : l.Nodup)
    (hmd : ∀ n ∈ l, mget md (pathJoin cwd n) = none) :
    syncLoop cwd statO views true l store md =
      ⟨l.map (fun n => .insert (pathJoin cwd n) (c (pathJoin cwd n))),
       store ++ l.map (fun n => (pathJoin cwd n, c (pathJoin cwd n))),
       md ++ l.map (fun n =>
         (pathJoin cwd n, ⟨h (pathJoin cwd n), ts (pathJoin cwd n)⟩)),
       none⟩ := by
  induction l generalizing store md with
  | nil => simp [syncLoop]
  | cons n rest ih =>
    have hs := hstat n (by simp)
    have hv := hview n (by simp)
    have hm := hmd n (by simp)
    obtain ⟨hn_mem, hrest_nodup⟩ := List.nodup_cons.mp hnodup
    have hupd : updateVectorDB (pathJoin cwd n) (views (pathJoin cwd n))
        store md true =
        ⟨[.insert (pathJoin cwd n) (c (pathJoin cwd n))],
         storeInsert store (pathJoin cwd n) (c (pathJoin cwd n)),
         mset md (pathJoin cwd n)
           ⟨h (pathJoin cwd n), ts (pathJoin cwd n)⟩, false⟩ := by
      rw [hv]
      simp [updateVectorDB, hm]
    have hmd2 : ∀ n2 ∈ rest, mget (md ++ [(pathJoin cwd n,
        (⟨h (pathJoin cwd n), ts (pathJoin cwd n)⟩ : FileRec))])
        (pathJoin cwd n2) = none := by
      intro n2 hn2
      rw [mget_append_of_none _ _ _ (hmd n2 (by simp [hn2]))]
      refine mget_singleton_ne _ _ _ ?_
      intro hjoin
      exact hn_mem (pathJoin_inj cwd n n2 hjoin ▸ hn2)
    have hrec := ih
      (storeInsert store (pathJoin cwd n) (c (pathJoin cwd n)))
      (md ++ [(pathJoin cwd n, ⟨h (pathJoin cwd n), ts (pathJoin cwd n)⟩)])
      (fun n2 hn2 => hstat n2 (by simp [hn2]))
      (fun n2 hn2 => hview n2 (by simp [hn2])) hrest_nodup hmd2
    simp only [syncLoop, hs, hupd,
      mset_of_mget_none md (pathJoin cwd n) _ hm]
    simp only [hrec]
    simp [storeInsert, List.append_assoc]

/-- When every orchestrator stat call succeeds, the loop never aborts,
whatever the per-file collaborators do. -/
theorem syncLoop_total_of_stat_ok
    (cwd : String) (statO : String → Except String FsStat)
    (views : String → FileView) (force : Bool) (l : List String)
    (store : VecStore) (md : FileMetadata)
    (hstat : ∀ n ∈ l, ∃ st, statO (pathJoin cwd n) = .ok st) :
    (syncLoop cwd statO views force l store md).err = none := by
  induction l generalizing store md with
  | nil => rfl
  | cons n rest ih =>
    obtain ⟨st, hst⟩ := hstat n (by simp)
    simp only [syncLoop, hst]
    by_cases hf : st.isFile
    · simp only [hf, if_true]
      exact ih _ _ (fun n2 hn2 => hstat n2 (by simp [hn2]))
    · simp only [hf, if_false]
      exact ih _ _ (fun n2 hn2 => hstat n2 (by simp [hn2]))

/-! ## Claim C2 -/

/-- C2: with the force flag set the ledger is replaced by the empty object
before the loop (so the outcome below does not depend on the loaded ledger
at all), every file on disk is classified New and gets exactly one insert
and one fresh ledger entry, and no delete is issued for any path. -/
theorem force_rebuild_run
    (cwd : String) (options : CliOptions) (w : World)
    (ts : String → Nat) (h c : String → String) (k : String)
    (hforce : options.forceUpdateVector = true)
    (hkey : resolvedKey options w = some k)
    (hke : k.isEmpty = false) (hkl : 20 < (jsTrim k).length)
    (hpath : (options.vectorStorePath.isSome && !w.storePathWritable) = false)
    (hstat : ∀ n ∈ w.listing,
      w.statO (pathJoin cwd n) = .ok ⟨true, ts (pathJoin cwd n)⟩)
    (hview : ∀ n ∈ w.listing, w.views (pathJoin cwd n) =
      ⟨some (ts (pathJoin cwd n)), some (h (pathJoin cwd n)),
       some (c (pathJoin cwd n)), true, true⟩)
    (hnodup : w.listing.Nodup) :
    runSearchAction cwd options w =
      ⟨true,
       w.listing.map (fun n => .insert (pathJoin cwd n) (c (pathJoin cwd n))),
       some (w.listing.map fun n =>
         (pathJoin cwd n, ⟨h (pathJoin cwd n), ts (pathJoin cwd n)⟩)),
       none⟩ ∧
    (∀ idGone, VecOp.delete idGone ∉ (runSearchAction cwd options w).ops) := by
  have hloop := syncLoop_force_fresh cwd w.statO w.views ts h c w.listing
    (w.loadedStore.getD []) [] hstat hview hnodup (by intro n _; rfl)
  have hrun : runSearchAction cwd options w =
      ⟨true,
       w.listing.map (fun n => .insert (pathJoin cwd n) (c (pathJoin cwd n))),
       some (w.listing.map fun n =>
         (pathJoin cwd n, ⟨h (pathJoin cwd n), ts (pathJoin cwd n)⟩)),
       none⟩ := by
    have hval : validateOpenAIApiKey k = true := by
      simp [validateOpenAIApiKey, hke, hkl]
    rw [runSearchAction, hkey]
    simp only [hke, hval, hpath, hforce, Bool.not_true, Bool.false_eq_true,
      if_false, if_true]
    simp [hloop]
  refine ⟨hrun, ?_⟩
  rw [hrun]
  intro idGone hmem
  simp only [List.mem_map] at hmem
  obtain ⟨n, _, hn⟩ := hmem
  exact VecOp.noConfusion hn

/-- Witness for C2: a concrete two-file force rebuild. -/
theorem force_rebuild_run_witness :
    runSearchAction "/w"
        ⟨some "sk-abcdefghijklmnopqrstuv", none, true⟩
        ⟨none, ["a.txt", "b.txt"], fun _ => .ok ⟨true, 5⟩,
         fun p => ⟨some 5, some ("H" ++ p), some ("C" ++ p), true, true⟩,
         [("/w/a.txt", ⟨"stale", 1⟩)], true, none⟩ =
      ⟨true,
       [.insert "/w/a.txt" "C/w/a.txt", .insert "/w/b.txt" "C/w/b.txt"],
       some [("/w/a.txt", ⟨"H/w/a.txt", 5⟩), ("/w/b.txt", ⟨"H/w/b.txt", 5⟩)],
       none⟩ := by
  have := (force_rebuild_run "/w"
    ⟨some "sk-abcdefghijklmnopqrstuv", none, true⟩
    ⟨none, ["a.txt", "b.txt"], fun _ => .ok ⟨true, 5⟩,
     fun p => ⟨some 5, some ("H" ++ p), some ("C" ++ p), true, true⟩,
     [("/w/a.txt", ⟨"stale", 1⟩)], true, none⟩
    (fun _ => 5) (fun p => "H" ++ p) (fun p => "C" ++ p)
    "sk-abcdefghijklmnopqrstuv" rfl rfl (by decide) (by decide) (by decide)
    (by intro n hn; simp at hn; rcases hn with rfl | rfl <;> rfl)
    (by intro n hn; simp at hn; rcases hn with rfl | rfl <;> rfl)
    (by decide)).1
  simpa using this

/-! ## Claim C5 -/

/-- C5 counterexample: the orchestrator calls `fs.stat` on each listed name
outside any try/catch.  In this world the first listed file is gone by the
time that stat runs, so the whole run rejects: no remaining file is
processed (the second file is a modified file that would have received a
delete and an insert) and nothing is persisted — contradicting the claim
that no single-file failure aborts the whole synchronization run. -/
theorem stat_failure_aborts_run :
    runSearchAction "/w" okOptions statFailWorld =
      ⟨true, [], none, some (.statFail "/w/gone.txt" "ENOENT")⟩ ∧
    mget statFailWorld.loadedMetadata "/w/b.txt" = some ⟨"hOld", 3⟩ ∧
    (statFailWorld.views "/w/b.txt").hashResult = some "hNew" := by
  refine ⟨?_, by decide, by decide⟩
  decide

/-- C5 amended: a failure inside the per-file update step (stat, hash or
read inside `updateVectorDB`, or a failing delete or insert) is caught and
logged there, leaves the ledger untouched, and the loop carries on — the
run completes whenever every orchestrator-level stat call succeeds.  Only a
file that disappears before the orchestrator's own stat check (line 131)
aborts the run, as the counterexample shows. -/
theorem per_file_failure_isolated
    (p : String) (v : FileView) (store : VecStore) (md : FileMetadata)
    (force : Bool) :
    ((updateVectorDB p v store md force).logged = true →
      (updateVectorDB p v store md force).metadata = md) ∧
    (∀ cwd statO views force2 l store2 md2,
      (∀ n ∈ l, ∃ st, statO (pathJoin cwd n) = Except.ok st) →
      (syncLoop cwd statO views force2 l store2 md2).err = none) := by
  constructor
  · obtain ⟨st, hh, rr, d, i⟩ := v
    cases st with
    | none => simp [updateVectorDB]
    | some ts =>
      cases hh with
      | none => simp [updateVectorDB]
      | some h =>
        simp only [updateVectorDB]
        split
        · cases rr with
          | none => simp
          | some c =>
            rcases hm : mget md p with _ | r0 <;> cases d <;> cases i <;> simp [hm]
        · simp
  · intro cwd statO views force2 l store2 md2 hstat
    exact syncLoop_total_of_stat_ok cwd statO views force2 l store2 md2 hstat

/-- Witness for the amended C5 statement: a stat failure inside the
per-file step leaves the ledger unchanged, and a loop whose orchestrator
stats all succeed completes even though every per-file read fails. -/
theorem per_file_failure_isolated_witness :
    ((updateVectorDB "/w/x.txt" ⟨none, none, none, true, true⟩ []
        [("/w/x.txt", ⟨"h", 1⟩)] false).metadata = [("/w/x.txt", ⟨"h", 1⟩)]) ∧
    (syncLoop "/w" (fun _ => .ok ⟨true, 1⟩)
        (fun _ => ⟨some 1, none, none, true, true⟩) false
        ["a.txt", "b.txt"] [] []).err = none :=
  ⟨(per_file_failure_isolated "/w/x.txt" ⟨none, none, none, true, true⟩ []
      [("/w/x.txt", ⟨"h", 1⟩)] false).1 (by decide),
   (per_file_failure_isolated "/w/x.txt" ⟨none, none, none, true, true⟩ []
      [("/w/x.txt", ⟨"h", 1⟩)] false).2 "/w" (fun _ => .ok ⟨true, 1⟩)
      (fun _ => ⟨some 1, none, none, true, true⟩) false ["a.txt", "b.txt"] [] []
      (fun n _ => ⟨⟨true, 1⟩, rfl⟩)⟩

/-! ## Claim C9 -/

/-- C9: the run gets past credential validation exactly when the resolved
candidate credential is non-empty and its whitespace-trimmed length is at
least 21; otherwise it stops at one of the two credential errors, before
the index is opened and before any vector operation. -/
theorem credential_validation_gate (cwd : String) (options : CliOptions)
    (w : World) :
    (((runSearchAction cwd options w).error ≠ some .missingKey ∧
      (runSearchAction cwd options w).error ≠ some .invalidKey) ↔
      (∃ k, resolvedKey options w = some k ∧ k.isEmpty = false ∧
        21 ≤ (jsTrim k).length)) ∧
    (((runSearchAction cwd options w).error = some .missingKey ∨
      (runSearchAction cwd options w).error = some .invalidKey) →
      (runSearchAction cwd options w).opened = false ∧
      (runSearchAction cwd options w).ops = []) := by
  rcases hk : resolvedKey options w with _ | k
  · have hr : runSearchAction cwd options w = ⟨false, [], none, some .missingKey⟩ := by
      rw [runSearchAction, hk]
    rw [hr]
    constructor
    · simp [hk]
    · intro _; exact ⟨rfl, rfl⟩
  · cases hke : k.isEmpty with
    | true =>
      have hr : runSearchAction cwd options w =
          ⟨false, [], none, some .missingKey⟩ := by
        rw [runSearchAction, hk]
        simp [hke]
      rw [hr]
      constructor
      · simp only [hk]
        constructor
        · intro hcon; exact absurd rfl hcon.1
        · rintro ⟨k2, hk2, hke2, _⟩
          rw [Option.some_inj] at hk2
          subst hk2
          rw [hke] at hke2
          exact Bool.noConfusion hke2
      · intro _; exact ⟨rfl, rfl⟩
    | false =>
      by_cases hkl : 20 < (jsTrim k).length
      · have hval : validateOpenAIApiKey k = true := by
          simp [validateOpenAIApiKey, hke, hkl]
        have herr : (runSearchAction cwd options w).error = some .invalidPath ∨
            (runSearchAction cwd options w).error = none ∨
            ∃ p e, (runSearchAction cwd options w).error = some (.statFail p e) := by
          rw [runSearchAction, hk]
          simp only [hke, hval, Bool.not_true, Bool.false_eq_true, if_false]
          cases hpath : (options.vectorStorePath.isSome && !w.storePathWritable) with
          | true => simp
          | false =>
            simp only [Bool.false_eq_true, if_false]
            rcases (syncLoop cwd w.statO w.views options.forceUpdateVector
                w.listing (w.loadedStore.getD [])
                (if options.forceUpdateVector then [] else w.loadedMetadata)).err
              with _ | pe
            · simp
            · simp
        constructor
        · constructor
          · intro _
            exact ⟨k, rfl, hke, by omega⟩
          · intro _
            rcases herr with h | h | ⟨p, e, h⟩ <;> rw [h] <;> simp
        · intro hcon
          rcases herr with h | h | ⟨p, e, h⟩ <;> rw [h] at hcon <;>
            rcases hcon with hcon | hcon <;> simp at hcon
      · have hval : validateOpenAIApiKey k = false := by
          simp [validateOpenAIApiKey, hke, hkl]
        have hr : runSearchAction cwd options w =
            ⟨false, [], none, some .invalidKey⟩ := by
          rw [runSearchAction, hk]
          simp [hke, hval]
        rw [hr]
        constructor
        · constructor
          · intro hcon; exact absurd rfl hcon.2
          · rintro ⟨k2, hk2, _, hkl2⟩
            rw [Option.some_inj] at hk2
            subst hk2
            omega
        · intro _; exact ⟨rfl, rfl⟩

/-- Witness for C9: a syntactically short credential stops the run with the
invalid-key error and nothing opened, no operation issued. -/
theorem credential_validation_gate_witness :
    (runSearchAction "/w" ⟨some "short", none, false⟩
        ⟨none, [], fun _ => .error "x", fun _ => ⟨none, none, none, true, true⟩,
         [], true, none⟩).opened = false ∧
    (runSearchAction "/w" ⟨some "short", none, false⟩
        ⟨none, [], fun _ => .error "x", fun _ => ⟨none, none, none, true, true⟩,
         [], true, none⟩).ops = [] :=
  (credential_validation_gate "/w" ⟨some "short", none, false⟩
    ⟨none, [], fun _ => .error "x", fun _ => ⟨none, none, none, true, true⟩,
     [], true, none⟩).2 (Or.inr (by decide))

/-! ## Character facts -/

theorem charToNat_ofNat (n : Nat) (h : n < 55296) : (Char.ofNat n).toNat = n := by
  rw [Char.ofNat, dif_pos (Or.inl h)]
  rfl

theorem charOfNat_toNat (c : Char) (h : c.toNat < 55296) :
    Char.ofNat c.toNat = c := by
  apply Char.eq_of_val_eq
  rw [Char.ofNat, dif_pos (Or.inl h)]
  apply UInt32.eq_of_toBitVec_eq
  apply BitVec.eq_of_toNat_eq
  simp [Char.ofNatAux, Char.toNat, UInt32.toNat]

theorem hexVal_hexDigitChar (d : Nat) (h : d < 16) :
    hexVal (hexDigitChar d) = some d := by
  interval_cases d <;> rfl

theorem char_beq_false_of_toNat_ne (c d : Char) (h : c.toNat ≠ d.toNat) :
    (c == d) = false := by
  apply beq_eq_false_iff_ne.mpr
  intro hcd
  exact h (by rw [hcd])

theorem skipWs_cons_ws (c : Char) (h : isWsChar c = true) (cs : List Char) :
    skipWs (c :: cs) = skipWs cs := by
  simp [skipWs, h]

theorem skipWs_cons_not (c : Char) (h : isWsChar c = false) (cs : List Char) :
    skipWs (c :: cs) = c :: cs := by
  simp [skipWs, h]

/-! ## String-literal parsing lemmas -/

theorem parseStringBody_close (rest : List Char) :
    parseStringBody ('"' :: rest) = some ([], rest) := by
  rw [parseStringBody.eq_def]
  simp

theorem parseStringBody_plain (c : Char) (cs : List Char)
    (h1 : (c == '"') = false) (h2 : (c == '\\') = false)
    (h3 : ¬ c.toNat < 32) :
    parseStringBody (c :: cs) =
      (parseStringBody cs).map (fun p => (c :: p.1, p.2)) := by
  rw [parseStringBody.eq_def]
  simp [h1, h2, h3]

theorem parseStringBody_escChar (c : Char) (cs : List Char) :
    parseStringBody (escChar c ++ cs) =
      (parseStringBody cs).map (fun p => (c :: p.1, p.2)) := by
  by_cases hq : c = '"'
  · subst hq
    rw [show escChar '"' = ['\\', '"'] from rfl, parseStringBody.eq_def]
    simp
  by_cases hb : c = '\\'
  · subst hb
    rw [show escChar '\\' = ['\\', '\\'] from rfl, parseStringBody.eq_def]
    simp +decide
  by_cases h8 : c = Char.ofNat 8
  · subst h8
    rw [show escChar (Char.ofNat 8) = ['\\', 'b'] from rfl, parseStringBody.eq_def]
    simp +decide
  by_cases ht : c = '\t'
  · subst ht
    rw [show escChar '\t' = ['\\', 't'] from rfl, parseStringBody.eq_def]
    simp +decide
  by_cases hn : c = '\n'
  · subst hn
    rw [show escChar '\n' = ['\\', 'n'] from rfl, parseStringBody.eq_def]
    simp +decide
  by_cases h12 : c = Char.ofNat 12
  · subst h12
    rw [show escChar (Char.ofNat 12) = ['\\', 'f'] from rfl, parseStringBody.eq_def]
    simp +decide
  by_cases hr : c = '\r'
  · subst hr
    rw [show escChar '\r' = ['\\', 'r'] from rfl, parseStringBody.eq_def]
    simp +decide
  by_cases hlt : c.toNat < 32
  · have hesc : escChar c =
        ['\\', 'u', '0', '0', hexDigitChar (c.toNat / 16), hexDigitChar (c.toNat % 16)] := by
      rw [escChar]
      simp [beq_eq_false_iff_ne.mpr hq, beq_eq_false_iff_ne.mpr hb,
        beq_eq_false_iff_ne.mpr h8, beq_eq_false_iff_ne.mpr ht,
        beq_eq_false_iff_ne.mpr hn, beq_eq_false_iff_ne.mpr h12,
        beq_eq_false_iff_ne.mpr hr, hlt]
    rw [hesc, parseStringBody.eq_def]
    simp +decide only [List.cons_append, List.nil_append]
    rw [show hexVal '0' = some 0 from rfl,
      hexVal_hexDigitChar (c.toNat / 16) (by omega),
      hexVal_hexDigitChar (c.toNat % 16) (by omega)]
    simp only []
    rw [show 0 * 4096 + 0 * 256 + c.toNat / 16 * 16 + c.toNat % 16 = c.toNat by omega]
    rw [charOfNat_toNat c (by omega)]
    simp only [if_true, if_false]
  · have hesc : escChar c = [c] := by
      rw [escChar]
      simp [beq_eq_false_iff_ne.mpr hq, beq_eq_false_iff_ne.mpr hb,
        beq_eq_false_iff_ne.mpr h8, beq_eq_false_iff_ne.mpr ht,
        beq_eq_false_iff_ne.mpr hn, beq_eq_false_iff_ne.mpr h12,
        beq_eq_false_iff_ne.mpr hr, hlt]
    rw [hesc]
    exact parseStringBody_plain c cs (beq_eq_false_iff_ne.mpr hq)
      (beq_eq_false_iff_ne.mpr hb) hlt

theorem parseStringBody_escape (cs rest : List Char) :
    parseStringBody (escapeChars cs ++ ('"' :: rest)) = some (cs, rest) := by
  induction cs with
  | nil => simpa [escapeChars] using parseStringBody_close rest
  | cons c cs ih =>
    rw [escapeChars, List.append_assoc, parseStringBody_escChar, ih]
    rfl

/-! ## Decimal-number printing lemmas -/

theorem natToRevDigits_lt (n : Nat) (h : n < 10) :
    natToRevDigits n = [digitChar n] := by
  rw [natToRevDigits]
  simp [h]

theorem natToRevDigits_ge (n : Nat) (h : ¬ n < 10) :
    natToRevDigits n = digitChar (n % 10) :: natToRevDigits (n / 10) := by
  conv_lhs => rw [natToRevDigits]
  simp [h]

theorem digitChar_toNat (d : Nat) (h : d < 10) : (digitChar d).toNat = 48 + d :=
  charToNat_ofNat _ (by omega)

theorem isDigitChar_digitChar (d : Nat) (h : d < 10) :
    isDigitChar (digitChar d) = true := by
  simp only [isDigitChar, digitChar_toNat d h, Bool.and_eq_true, decide_eq_true_eq]
  omega

theorem digitVal_digitChar (d : Nat) (h : d < 10) :
    digitVal (digitChar d) = d := by
  simp [digitVal, digitChar_toNat d h]

theorem natToRevDigits_all_digits (n : Nat) :
    ∀ c ∈ natToRevDigits n, isDigitChar c = true := by
  induction n using Nat.strong_induction_on with
  | _ n ih =>
    by_cases h : n < 10
    · rw [natToRevDigits_lt n h]
      intro c hc
      rw [List.mem_singleton] at hc
      subst hc
      exact isDigitChar_digitChar n h
    · rw [natToRevDigits_ge n h]
      intro c hc
      rcases List.mem_cons.mp hc with hc | hc
      · subst hc
        exact isDigitChar_digitChar _ (Nat.mod_lt n (by omega))
      · exact ih (n / 10) (Nat.div_lt_self (by omega) (by omega)) c hc

theorem foldl_digitsToNat (n : Nat) : ∀ acc : Nat,
    List.foldl (fun a c => a * 10 + digitVal c) acc ((natToRevDigits n).reverse) =
      acc * 10 ^ (natToRevDigits n).length + n := by
  induction n using Nat.strong_induction_on with
  | _ n ih =>
    intro acc
    by_cases h : n < 10
    · rw [natToRevDigits_lt n h]
      simp [digitVal_digitChar n h]
    · rw [natToRevDigits_ge n h]
      rw [List.reverse_cons, List.foldl_append, List.length_cons]
      rw [ih (n / 10) (Nat.div_lt_self (by omega) (by omega)) acc]
      simp only [List.foldl_cons, List.foldl_nil]
      rw [digitVal_digitChar _ (Nat.mod_lt n (by omega))]
      rw [pow_succ]
      have hdm : 10 * (n / 10) + n % 10 = n := Nat.div_add_mod n 10
      rw [Nat.add_mul, Nat.add_assoc, Nat.mul_comm (n / 10) 10, hdm,
        Nat.mul_assoc]

theorem digitsToNat_rev (n : Nat) :
    digitsToNat ((natToRevDigits n).reverse) = n := by
  have := foldl_digitsToNat n 0
  simpa [digitsToNat] using this

theorem natToString_head_pos (n : Nat) (h : 0 < n) :
    ∃ d tl, 1 ≤ d ∧ d ≤ 9 ∧ (natToRevDigits n).reverse = digitChar d :: tl ∧
      ∀ c ∈ tl, isDigitChar c = true := by
  induction n using Nat.strong_induction_on with
  | _ n ih =>
    by_cases hn : n < 10
    · exact ⟨n, [], by omega, by omega, by rw [natToRevDigits_lt n hn]; rfl,
        by intro c hc; exact absurd hc (List.not_mem_nil c)⟩
    · obtain ⟨d, tl, hd1, hd9, hrev, htl⟩ :=
        ih (n / 10) (Nat.div_lt_self (by omega) (by omega))
          (Nat.div_pos (by omega) (by omega))
      refine ⟨d, tl ++ [digitChar (n % 10)], hd1, hd9, ?_, ?_⟩
      · rw [natToRevDigits_ge n hn, List.reverse_cons, hrev]
        rfl
      · intro c hc
        rcases List.mem_append.mp hc with hc | hc
        · exact htl c hc
        · rw [List.mem_singleton] at hc
          subst hc
          exact isDigitChar_digitChar _ (Nat.mod_lt n (by omega))

theorem takeWhile_digits_append (xs rest : List Char)
    (hxs : ∀ c ∈ xs, isDigitChar c = true)
    (hr : ∀ c, rest.head? = some c → isDigitChar c = false) :
    (xs ++ rest).takeWhile isDigitChar = xs := by
  rw [List.takeWhile_append_of_pos hxs]
  cases rest with
  | nil => simp
  | cons c rs =>
    rw [List.takeWhile_cons, hr c rfl]
    simp

theorem dropWhile_digits_append (xs rest : List Char)
    (hxs : ∀ c ∈ xs, isDigitChar c = true)
    (hr : ∀ c, rest.head? = some c → isDigitChar c = false) :
    (xs ++ rest).dropWhile isDigitChar = rest := by
  rw [List.dropWhile_append_of_pos hxs]
  cases rest with
  | nil => simp
  | cons c rs =>
    rw [List.dropWhile_cons, hr c rfl]
    simp

theorem natToRevDigits_ne_nil (n : Nat) : natToRevDigits n ≠ [] := by
  by_cases h : n < 10
  · rw [natToRevDigits_lt n h]
    exact List.cons_ne_nil _ _
  · rw [natToRevDigits_ge n h]
    exact List.cons_ne_nil _ _

theorem isDigitChar_bounds (c : Char) (h : isDigitChar c = true) :
    48 ≤ c.toNat ∧ c.toNat ≤ 57 := by
  simp only [isDigitChar, Bool.and_eq_true, decide_eq_true_eq] at h
  exact h

theorem isWsChar_eq_false (c : Char) (h1 : 33 ≤ c.toNat) (h2 : c.toNat ≤ 126) :
    isWsChar c = false := by
  simp only [isWsChar, Bool.or_eq_false_iff, Bool.and_eq_false_iff,
    beq_eq_false_iff_ne, decide_eq_false_iff_not]
  have hne : ∀ d : Char, d.toNat < 33 → c ≠ d := by
    intro d hd hcd
    subst hcd
    omega
  exact ⟨⟨⟨hne ' ' (by decide), hne '\t' (by decide)⟩, hne '\n' (by decide)⟩,
    hne '\x0d' (by decide)⟩

/-- Parsing the printed decimal of a natural number followed by a line
feed: the digits are consumed as a plain JSON number. -/
theorem parseNumber_nat_nl (n : Nat) (tail : List Char) :
    parseNumber ((natToRevDigits n).reverse ++ '\n' :: tail) =
      some (Jval.num n, '\n' :: tail) := by
  have hnl : ∀ c : Char, ('\n' :: tail).head? = some c → isDigitChar c = false := by
    intro c hc
    simp at hc
    subst hc
    rfl
  rcases Nat.eq_zero_or_pos n with hz | hp
  · subst hz
    rw [natToRevDigits_lt 0 (by omega)]
    simp +decide [parseNumber, parseNumberBody, finishNumber, finishExp, mkNum,
      digitsToNat, digitVal]
  · obtain ⟨d, tl, hd1, hd9, hrev, htl⟩ := natToString_head_pos n hp
    rw [hrev, List.cons_append]
    have h48 : (digitChar d).toNat = 48 + d := digitChar_toNat d (by omega)
    have hnm : (digitChar d == '-') = false :=
      char_beq_false_of_toNat_ne (digitChar d) '-'
        (by rw [h48]; have h45 : ('-').toNat = 45 := rfl; omega)
    have hn0 : (digitChar d == '0') = false :=
      char_beq_false_of_toNat_ne (digitChar d) '0'
        (by rw [h48]; have h48b : ('0').toNat = 48 := rfl; omega)
    have hdig : isDigitChar (digitChar d) = true := isDigitChar_digitChar d (by omega)
    have htake := takeWhile_digits_append tl ('\n' :: tail) htl hnl
    have hdrop := dropWhile_digits_append tl ('\n' :: tail) htl hnl
    have hval : digitsToNat (digitChar d :: tl) = n := by
      rw [show digitChar d :: tl = (natToRevDigits n).reverse from hrev.symm]
      exact digitsToNat_rev n
    simp +decide [parseNumber, parseNumberBody, finishNumber, finishExp, mkNum,
      hnm, hn0, hdig, htake, hdrop, hval]

/-! ## Leaf-value parsing lemmas -/

/-- A quoted string literal after one space of layout parses to its string. -/
theorem parseValue_str_sp (g : Nat) (s : String) (rest : List Char) :
    parseValue (g + 1) (' ' :: ((quoteString s).data ++ rest)) =
      some (.str s, rest) := by
  have hq : (quoteString s).data = '"' :: (escapeChars s.data ++ ['"']) := rfl
  rw [hq]
  simp only [List.cons_append, List.append_assoc, List.nil_append]
  rw [parseValue]
  rw [skipWs_cons_ws ' ' (by rfl) _, skipWs_cons_not '"' (by rfl) _]
  simp only [beq_self_eq_true, if_true]
  rw [parseStringBody_escape]

/-- A printed natural number after one space of layout, followed by a line
feed, parses to that number. -/
theorem parseValue_num_nl (g n : Nat) (tail : List Char) :
    parseValue (g + 1) (' ' :: ((natToRevDigits n).reverse ++ '\n' :: tail)) =
      some (.num n, '\n' :: tail) := by
  obtain ⟨c0, cs0, hrev⟩ : ∃ c0 cs0, (natToRevDigits n).reverse = c0 :: cs0 := by
    rcases h : (natToRevDigits n).reverse with _ | ⟨a, b⟩
    · exact absurd (List.reverse_eq_nil_iff.mp h) (natToRevDigits_ne_nil n)
    · exact ⟨a, b, rfl⟩
  have hc0 : isDigitChar c0 = true := by
    have hmem : c0 ∈ (natToRevDigits n).reverse := by
      rw [hrev]
      simp
    exact natToRevDigits_all_digits n c0 (List.mem_reverse.mp hmem)
  obtain ⟨hb1, hb2⟩ := isDigitChar_bounds c0 hc0
  rw [hrev, List.cons_append]
  rw [parseValue]
  rw [skipWs_cons_ws ' ' (by rfl) _,
    skipWs_cons_not c0 (isWsChar_eq_false c0 (by omega) (by omega)) _]
  have hne : ∀ d : Char, d.toNat < 48 ∨ 57 < d.toNat → (c0 == d) = false := by
    intro d hd
    exact char_beq_false_of_toNat_ne c0 d (by omega)
  simp only [hne '"' (by decide), hne '{' (by decide), hne '[' (by decide),
    hne 't' (by decide), hne 'f' (by decide), hne 'n' (by decide),
    Bool.false_eq_true, if_false]
  rw [← List.cons_append, ← hrev]
  exact parseNumber_nat_nl n tail

/-! ## Record-object parsing -/

theorem parseStringBody_hash (x : List Char) :
    parseStringBody ('h' :: 'a' :: 's' :: 'h' :: '"' :: x) =
      some (['h', 'a', 's', 'h'], x) := by
  rw [parseStringBody_plain 'h' _ (by decide) (by decide) (by decide),
    parseStringBody_plain 'a' _ (by decide) (by decide) (by decide),
    parseStringBody_plain 's' _ (by decide) (by decide) (by decide),
    parseStringBody_plain 'h' _ (by decide) (by decide) (by decide),
    parseStringBody_close]
  rfl

theorem parseStringBody_timestamp (x : List Char) :
    parseStringBody
        ('t' :: 'i' :: 'm' :: 'e' :: 's' :: 't' :: 'a' :: 'm' :: 'p' :: '"' :: x) =
      some (['t', 'i', 'm', 'e', 's', 't', 'a', 'm', 'p'], x) := by
  rw [parseStringBody_plain 't' _ (by decide) (by decide) (by decide),
    parseStringBody_plain 'i' _ (by decide) (by decide) (by decide),
    parseStringBody_plain 'm' _ (by decide) (by decide) (by decide),
    parseStringBody_plain 'e' _ (by decide) (by decide) (by decide),
    parseStringBody_plain 's' _ (by decide) (by decide) (by decide),
    parseStringBody_plain 't' _ (by decide) (by decide) (by decide),
    parseStringBody_plain 'a' _ (by decide) (by decide) (by decide),
    parseStringBody_plain 'm' _ (by decide) (by decide) (by decide),
    parseStringBody_plain 'p' _ (by decide) (by decide) (by decide),
    parseStringBody_close]
  rfl

/-- Parsing one printed `{hash, timestamp}` record (preceded by the single
layout space after the colon) yields its JSON value and the untouched
tail. -/
theorem parseValue_printRec (g : Nat) (r : FileRec) (tail : List Char) :
    parseValue (g + 4) (' ' :: ((printRec r).data ++ tail)) =
      some (encodeRec r, tail) := by
  obtain ⟨h, t⟩ := r
  have hdata : (printRec ⟨h, t⟩).data ++ tail =
      '{' :: '\n' :: ' ' :: ' ' :: ' ' :: ' ' ::
        '"' :: 'h' :: 'a' :: 's' :: 'h' :: '"' :: ':' :: ' ' ::
        ((quoteString h).data ++
          (',' :: '\n' :: ' ' :: ' ' :: ' ' :: ' ' ::
            '"' :: 't' :: 'i' :: 'm' :: 'e' :: 's' :: 't' :: 'a' :: 'm' :: 'p' ::
            '"' :: ':' :: ' ' ::
            ((natToRevDigits t).reverse ++
              ('\n' :: (' ' :: ' ' :: '}' :: tail))))) := by
    show (("\x7b\n    \"hash\": " ++ quoteString h ++ ",\n    \"timestamp\": "
      ++ natToString t ++ "\n  \x7d").data ++ tail) = _
    simp only [String.data_append]
    rw [show (natToString t).data = (natToRevDigits t).reverse from rfl]
    simp only [List.cons_append, List.append_assoc, List.nil_append]
  rw [hdata]
  rw [parseValue]
  rw [skipWs_cons_ws ' ' (by rfl) _, skipWs_cons_not '{' (by rfl) _]
  simp +decide only [if_true, if_false]
  rw [skipWs_cons_ws '\n' (by rfl) _, skipWs_cons_ws ' ' (by rfl) _,
    skipWs_cons_ws ' ' (by rfl) _, skipWs_cons_ws ' ' (by rfl) _,
    skipWs_cons_ws ' ' (by rfl) _, skipWs_cons_not '"' (by rfl) _]
  simp +decide only [if_true, if_false]
  rw [parseMembers]
  simp +decide only [if_true, if_false]
  rw [parseStringBody_hash]
  simp only []
  rw [skipWs_cons_not ':' (by rfl) _]
  simp +decide only [if_true, if_false]
  rw [parseValue_str_sp (g + 1) h]
  simp only []
  rw [skipWs_cons_not ',' (by rfl) _]
  simp +decide only [if_true, if_false]
  rw [skipWs_cons_ws '\n' (by rfl) _, skipWs_cons_ws ' ' (by rfl) _,
    skipWs_cons_ws ' ' (by rfl) _, skipWs_cons_ws ' ' (by rfl) _,
    skipWs_cons_ws ' ' (by rfl) _, skipWs_cons_not '"' (by rfl) _]
  rw [parseMembers]
  simp +decide only [if_true, if_false]
  rw [parseStringBody_timestamp]
  simp only []
  rw [skipWs_cons_not ':' (by rfl) _]
  simp +decide only [if_true, if_false]
  rw [parseValue_num_nl g t (' ' :: ' ' :: '}' :: tail)]
  simp only []
  rw [skipWs_cons_ws '\n' (by rfl) _, skipWs_cons_ws ' ' (by rfl) _,
    skipWs_cons_ws ' ' (by rfl) _, skipWs_cons_not '}' (by rfl) _]
  simp +decide only [if_true, if_false]
  rfl

/-! ## Whole-object parsing -/

theorem memberStream_cons_quote (e : String × FileRec) (rest : FileMetadata)
    (tail : List Char) :
    ∃ z, memberStream (e :: rest) tail = '"' :: z := by
  obtain ⟨k, r⟩ := e
  cases rest with
  | nil => exact ⟨_, rfl⟩
  | cons e2 rest2 => exact ⟨_, rfl⟩

/-- Walking the object members of the printed ledger from the first key:
each printed entry parses to its encoded field, comma-separated, through
the closing brace. -/
theorem parseMembers_memberStream (m : FileMetadata) (hne : m ≠ []) :
    ∀ (g : Nat) (tail : List Char),
      parseMembers (g + 2 * m.length + 3) (memberStream m tail) =
        some (m.map (fun e => (e.1, encodeRec e.2)), tail) := by
  induction m with
  | nil => exact absurd rfl hne
  | cons e rest ih =>
    obtain ⟨k, r⟩ := e
    intro g tail
    cases rest with
    | nil =>
      have hfuel : g + 2 * [((k : String), r)].length + 3 = (g + 4) + 1 := by
        simp
      rw [hfuel, memberStream]
      have hq : (quoteString k).data = '"' :: (escapeChars k.data ++ ['"']) := rfl
      rw [hq]
      simp only [List.cons_append, List.append_assoc, List.nil_append]
      rw [parseMembers]
      simp +decide only [if_true, if_false]
      rw [parseStringBody_escape]
      simp only []
      rw [skipWs_cons_not ':' (by rfl) _]
      simp +decide only [if_true, if_false]
      rw [parseValue_printRec g r ('\n' :: '}' :: tail)]
      simp only []
      rw [skipWs_cons_ws '\n' (by rfl) _, skipWs_cons_not '}' (by rfl) _]
      simp +decide only [if_true, if_false]
      rfl
    | cons e2 rest2 =>
      have hfuel : g + 2 * (((k : String), r) :: e2 :: rest2).length + 3 =
          (g + 2 * rest2.length + 6) + 1 := by
        simp only [List.length_cons]
        omega
      rw [hfuel, memberStream]
      have hq : (quoteString k).data = '"' :: (escapeChars k.data ++ ['"']) := rfl
      rw [hq]
      simp only [List.cons_append, List.append_assoc, List.nil_append]
      rw [parseMembers]
      simp +decide only [if_true, if_false]
      rw [parseStringBody_escape]
      simp only []
      rw [skipWs_cons_not ':' (by rfl) _]
      simp +decide only [if_true, if_false]
      rw [show (g + 2 * rest2.length + 5) + 1 = (g + 2 * rest2.length + 2) + 4
        from by omega]
      rw [parseValue_printRec (g + 2 * rest2.length + 2) r]
      simp only []
      rw [skipWs_cons_not ',' (by rfl) _]
      simp +decide only [if_true, if_false]
      rw [skipWs_cons_ws '\n' (by rfl) _, skipWs_cons_ws ' ' (by rfl) _,
        skipWs_cons_ws ' ' (by rfl) _]
      obtain ⟨z, hz⟩ := memberStream_cons_quote e2 rest2 tail
      rw [hz, skipWs_cons_not '"' (by rfl) _, ← hz]
      rw [show g + 2 * rest2.length + 2 + 4 = (g + 1) + 2 * (e2 :: rest2).length + 3
        from by simp only [List.length_cons]; omega]
      rw [ih (List.cons_ne_nil e2 rest2) (g + 1) tail]
      rfl
      exact fun h2 => List.noConfusion h2

/-- The printed entry block, followed by the closing line of the object, is
exactly the member stream after the first two-space indent. -/
theorem entriesString_memberStream (m : FileMetadata) (hne : m ≠ [])
    (tail : List Char) :
    (entriesString m).data ++ ('\n' :: '}' :: tail) =
      ' ' :: ' ' :: memberStream m tail := by
  induction m with
  | nil => exact absurd rfl hne
  | cons e rest ih =>
    obtain ⟨k, r⟩ := e
    cases rest with
    | nil =>
      show ((printEntry (k, r)).data ++ _ = _)
      rw [show printEntry (k, r) =
        "  " ++ quoteString k ++ ": " ++ printRec r from rfl]
      simp only [String.data_append]
      rw [memberStream]
      simp only [List.cons_append, List.append_assoc, List.nil_append]
    | cons e2 rest2 =>
      show ((printEntry (k, r) ++ ",\n" ++ entriesString (e2 :: rest2)).data ++ _ = _)
      rw [show printEntry (k, r) =
        "  " ++ quoteString k ++ ": " ++ printRec r from rfl]
      simp only [String.data_append]
      rw [memberStream]
      simp only [List.cons_append, List.append_assoc, List.nil_append]
      rw [ih (List.cons_ne_nil e2 rest2)]
      exact fun h2 => List.noConfusion h2

theorem quoteString_length_ge (k : String) : 2 ≤ (quoteString k).data.length := by
  rw [show (quoteString k).data = '"' :: (escapeChars k.data ++ ['"']) from rfl]
  simp

theorem memberStream_length_ge (m : FileMetadata) (tail : List Char) :
    tail.length + 2 * m.length ≤ (memberStream m tail).length := by
  induction m with
  | nil => simp [memberStream]
  | cons e rest ih =>
    obtain ⟨k, r⟩ := e
    have hq := quoteString_length_ge k
    cases rest with
    | nil =>
      rw [memberStream]
      simp only [List.length_append, List.length_cons]
      simp only [List.length_cons, List.length_nil]
      omega
    | cons e2 rest2 =>
      rw [memberStream]
      simp only [List.length_append, List.length_cons] at ih ⊢
      omega
      exact fun h2 => List.noConfusion h2

/-- Parsing the exact text `saveFileMetadata` writes recovers the encoded
ledger object. -/
theorem jsonParse_save (m : FileMetadata) :
    jsonParse (saveFileMetadataString m) = some (encodeMetadata m) := by
  cases m with
  | nil => rfl
  | cons e rest =>
    have hne : (e :: rest) ≠ ([] : FileMetadata) := List.cons_ne_nil e rest
    have hsdata : (saveFileMetadataString (e :: rest)).data =
        '{' :: '\n' :: ' ' :: ' ' :: memberStream (e :: rest) [] := by
      rw [show saveFileMetadataString (e :: rest) =
        "\x7b\n" ++ entriesString (e :: rest) ++ "\n\x7d" from rfl]
      simp only [String.data_append]
      simp only [List.cons_append, List.append_assoc, List.nil_append]
      rw [entriesString_memberStream (e :: rest) hne []]
    have hlen : (saveFileMetadataString (e :: rest)).length =
        4 + (memberStream (e :: rest) []).length := by
      rw [show (saveFileMetadataString (e :: rest)).length =
        (saveFileMetadataString (e :: rest)).data.length from rfl]
      rw [hsdata]
      simp only [List.length_cons]
      omega
    have hbound : 2 * (e :: rest).length + 3 ≤
        4 + (memberStream (e :: rest) []).length := by
      have := memberStream_length_ge (e :: rest) []
      simp only [List.length_nil] at this
      omega
    obtain ⟨g, hg⟩ := Nat.le.dest hbound
    rw [jsonParse, hlen, hsdata]
    rw [show 4 + (memberStream (e :: rest) []).length + 1 =
      (4 + (memberStream (e :: rest) []).length) + 1 from rfl]
    rw [parseValue]
    rw [skipWs_cons_not '{' (by rfl) _]
    simp +decide only [if_true, if_false]
    rw [skipWs_cons_ws '\n' (by rfl) _, skipWs_cons_ws ' ' (by rfl) _,
      skipWs_cons_ws ' ' (by rfl) _]
    obtain ⟨z, hz⟩ := memberStream_cons_quote e rest []
    rw [hz, skipWs_cons_not '"' (by rfl) _]
    simp +decide only [if_true, if_false]
    rw [← hz]
    rw [show 4 + (memberStream (e :: rest) []).length =
      g + 2 * (e :: rest).length + 3 from by omega]
    rw [parseMembers_memberStream (e :: rest) hne g []]
    rfl

/-- Decoding inverts encoding of the ledger mapping. -/
theorem decodeMetadata_encodeMetadata (m : FileMetadata) :
    decodeMetadata (encodeMetadata m) = some m := by
  induction m with
  | nil => rfl
  | cons e rest ih =>
    obtain ⟨k, r⟩ := e
    show decodeFields ((k, encodeRec r) :: rest.map fun e => (e.1, encodeRec e.2)) =
      some ((k, r) :: rest)
    rw [decodeFields]
    rw [show decodeRec (encodeRec r) = some r from by obtain ⟨h, t⟩ := r; rfl]
    rw [show decodeFields (rest.map fun e => (e.1, encodeRec e.2)) = some rest
      from ih]

/-! ## Claim C7 -/

/-- C7: loading the ledger never throws.  A missing file (ENOENT) yields
the empty mapping without a warning; a file whose content fails JSON
parsing yields the empty mapping with a logged warning.  `loadFileMetadata`
is a total function of the read outcome: every case returns a value. -/
theorem load_missing_or_malformed_yields_empty :
    (loadFileMetadata (.error .enoent) = ⟨Jval.obj [], false⟩) ∧
    (∀ s, jsonParse s = none → loadFileMetadata (.ok s) = ⟨Jval.obj [], true⟩) := by
  refine ⟨rfl, ?_⟩
  intro s h
  simp [loadFileMetadata, h]

/-- Witness for C7: the literal content of the spec's malformed-ledger
scenario is rejected by the JSON grammar and loads as the empty mapping. -/
theorem load_missing_or_malformed_yields_empty_witness :
    jsonParse "{invalid json}" = none ∧
    loadFileMetadata (.ok "{invalid json}") = ⟨Jval.obj [], true⟩ :=
  ⟨by rfl, load_missing_or_malformed_yields_empty.2 "{invalid json}" (by rfl)⟩

/-! ## Claim C8 -/

/-- C8: saving any ledger mapping (string keys with arbitrary characters,
`{hash, timestamp}` values) and loading the written text back yields the
same mapping: the parsed JSON value is exactly the encoded object, without
a warning, and decoding that object returns the original mapping.  The
no-duplicate-keys hypothesis restricts the statement to mappings that a
JavaScript object can hold. -/
theorem save_load_roundtrip (m : FileMetadata)
    (_hnd : (m.map Prod.fst).Nodup) :
    loadFileMetadata (.ok (saveFileMetadataString m)) =
      ⟨encodeMetadata m, false⟩ ∧
    decodeMetadata (encodeMetadata m) = some m := by
  refine ⟨?_, decodeMetadata_encodeMetadata m⟩
  simp [loadFileMetadata, jsonParse_save m]

/-- Witness for C8: a concrete two-entry mapping with characters needing
escapes round-trips. -/
theorem save_load_roundtrip_witness :
    (([("/w/a.txt", (⟨"ab\"c\\d", 170⟩ : FileRec)),
       ("/w/b.txt", ⟨"def456", 9876⟩)].map Prod.fst).Nodup) ∧
    (loadFileMetadata (.ok (saveFileMetadataString
        [("/w/a.txt", ⟨"ab\"c\\d", 170⟩), ("/w/b.txt", ⟨"def456", 9876⟩)])) =
      ⟨encodeMetadata
        [("/w/a.txt", ⟨"ab\"c\\d", 170⟩), ("/w/b.txt", ⟨"def456", 9876⟩)], false⟩ ∧
    decodeMetadata (encodeMetadata
        [("/w/a.txt", ⟨"ab\"c\\d", 170⟩), ("/w/b.txt", ⟨"def456", 9876⟩)]) =
      some [("/w/a.txt", ⟨"ab\"c\\d", 170⟩), ("/w/b.txt", ⟨"def456", 9876⟩)]) :=
  ⟨by decide,
   save_load_roundtrip
     [("/w/a.txt", ⟨"ab\"c\\d", 170⟩), ("/w/b.txt", ⟨"def456", 9876⟩)]
     (by decide)⟩

end Repomix
